import Mathlib

set_option maxHeartbeats 1000000

/-!
Verification development for the go-gemini client library.

Strings on the wire are modelled as lists of byte values (List Nat,
each entry < 256). All definitions are byte-level translations of the
corresponding Go functions; doc comments name the source function.
-/

/-- Byte list of an ASCII string literal (each character below 128, so the
codepoint equals the byte). Used only to write concrete inputs readably. -/
def strBytes (s : String) : List Nat := s.toList.map (fun c => c.toNat)

/-- URLMaxLength from gemini.go. -/
def URLMaxLength : Nat := 1024

/-- MetaMaxLength from gemini.go. -/
def MetaMaxLength : Nat := 1024

/-- Models bytes.HasSuffix from the Go standard library:
len(s) >= len(suffix) and the last len(suffix) bytes equal suffix. -/
def bytesHasSuffix (s suffix : List Nat) : Bool :=
  decide (suffix.length ≤ s.length) && decide (s.drop (s.length - suffix.length) = suffix)

/-- Models the loop of readHeader (client.go): one byte is read at a time and
appended to the line until the line ends in CRLF, in which case the line
without the delimiter is returned; the argument list is the finite stream of
available bytes, after which the reader reports EOF (the error case). -/
def readHeaderAux (line : List Nat) : List Nat → Except Unit (List Nat)
  | [] => .error ()
  | b :: rest =>
    let line2 := line ++ [b]
    if bytesHasSuffix line2 [13, 10] then .ok (line2.take (line2.length - 2))
    else readHeaderAux line2 rest

/-- Models readHeader (client.go). -/
def readHeader (input : List Nat) : Except Unit (List Nat) := readHeaderAux [] input

/-- The asciiSpace table of strings.Fields: the single-byte characters for
which unicode.IsSpace holds. -/
def isSpaceByte (b : Nat) : Bool := b = 9 || b = 10 || b = 11 || b = 12 || b = 13 || b = 32

/-- Accumulator loop of the ASCII fast path of strings.Fields; acc holds
the current run reversed. -/
def fieldsAux (acc : List Nat) : List Nat → List (List Nat)
  | [] => if acc = [] then [] else [acc.reverse]
  | b :: rest =>
    if isSpaceByte b then
      if acc = [] then fieldsAux [] rest else acc.reverse :: fieldsAux [] rest
    else fieldsAux (b :: acc) rest

/-- Models unicode.IsSpace on a decoded rune (codepoint): the White_Space
codepoints — the ASCII controls and space, NEL, NBSP, OGHAM SPACE MARK,
EN QUAD through HAIR SPACE, LINE and PARAGRAPH SEPARATOR, NARROW NBSP,
MEDIUM MATHEMATICAL SPACE, and IDEOGRAPHIC SPACE. -/
def isSpaceRune (r : Nat) : Bool :=
  r = 9 || r = 10 || r = 11 || r = 12 || r = 13 || r = 32 || r = 133 || r = 160 ||
  r = 5760 || (decide (8192 ≤ r) && decide (r ≤ 8202)) || r = 8232 || r = 8233 ||
  r = 8239 || r = 8287 || r = 12288

/-- Models utf8.DecodeRune on a byte list: the decoded codepoint and the
number of bytes consumed; an invalid or truncated encoding yields the
replacement rune 65533 with size 1, as in the Go utf8 package. -/
def decodeRune : List Nat → Nat × Nat
  | [] => (65533, 0)
  | b0 :: rest =>
    if b0 < 128 then (b0, 1)
    else if 194 ≤ b0 ∧ b0 ≤ 223 then
      match rest with
      | b1 :: _ =>
          if 128 ≤ b1 ∧ b1 ≤ 191 then ((b0 - 192) * 64 + (b1 - 128), 2) else (65533, 1)
      | [] => (65533, 1)
    else if 224 ≤ b0 ∧ b0 ≤ 239 then
      match rest with
      | b1 :: b2 :: _ =>
          if (if b0 = 224 then 160 ≤ b1 ∧ b1 ≤ 191
              else if b0 = 237 then 128 ≤ b1 ∧ b1 ≤ 159
              else 128 ≤ b1 ∧ b1 ≤ 191) ∧ 128 ≤ b2 ∧ b2 ≤ 191 then
            ((b0 - 224) * 4096 + (b1 - 128) * 64 + (b2 - 128), 3)
          else (65533, 1)
      | _ => (65533, 1)
    else if 240 ≤ b0 ∧ b0 ≤ 244 then
      match rest with
      | b1 :: b2 :: b3 :: _ =>
          if (if b0 = 240 then 144 ≤ b1 ∧ b1 ≤ 191
              else if b0 = 244 then 128 ≤ b1 ∧ b1 ≤ 143
              else 128 ≤ b1 ∧ b1 ≤ 191) ∧ 128 ≤ b2 ∧ b2 ≤ 191 ∧ 128 ≤ b3 ∧ b3 ≤ 191 then
            ((b0 - 240) * 262144 + (b1 - 128) * 4096 + (b2 - 128) * 64 + (b3 - 128), 4)
          else (65533, 1)
      | _ => (65533, 1)
    else (65533, 1)

/-- Models strings.FieldsFunc(s, unicode.IsSpace), the path strings.Fields
takes when some byte of s is 128 or above: the input is decoded rune by
rune and the fields are the maximal byte runs of non-white-space runes
(an invalid encoding decodes to the replacement rune, which is not white
space, so its byte stays in the field). The fuel argument only bounds the
recursion; each decoded rune consumes at least one byte. -/
def fieldsFuncAux : Nat → List Nat → List Nat → List (List Nat)
  | 0, acc, _ => if acc = [] then [] else [acc.reverse]
  | fuel + 1, acc, s =>
    match s with
    | [] => if acc = [] then [] else [acc.reverse]
    | _ :: _ =>
      match decodeRune s with
      | (r, n) =>
        if isSpaceRune r then
          if acc = [] then fieldsFuncAux fuel [] (s.drop n)
          else acc.reverse :: fieldsFuncAux fuel [] (s.drop n)
        else fieldsFuncAux fuel ((s.take n).reverse ++ acc) (s.drop n)

/-- Models strings.Fields: when every byte of the input is ASCII, the
fields are the maximal runs of non-white-space bytes per the asciiSpace
table, and when any byte is 128 or above, strings.Fields falls back to
FieldsFunc with unicode.IsSpace over the decoded runes. -/
def fields (s : List Nat) : List (List Nat) :=
  if s.any (fun b => decide (128 ≤ b)) then fieldsFuncAux s.length [] s
  else fieldsAux [] s

/-- Value of a decimal digit string; none if some byte is not a digit. -/
def digitsVal (acc : Nat) : List Nat → Option Nat
  | [] => some acc
  | b :: rest => if 48 ≤ b ∧ b ≤ 57 then digitsVal (acc * 10 + (b - 48)) rest else none

/-- Models strconv.Atoi on inputs that do not overflow a machine int:
an optional sign followed by at least one decimal digit. -/
def atoi (s : List Nat) : Except Unit Int :=
  match s with
  | [] => .error ()
  | b :: rest =>
    let neg : Bool := decide (b = 45)
    let ds : List Nat := if b = 43 ∨ b = 45 then rest else b :: rest
    if ds = [] then .error ()
    else
      match digitsVal 0 ds with
      | none => .error ()
      | some n => .ok (if neg then -(n : Int) else (n : Int))

/-- The header struct of client.go. -/
structure Header where
  status : Int
  meta : List Nat
deriving DecidableEq

/-- The distinct error returns of getHeader (client.go). -/
inductive HeaderError
  | readFail      -- failed to read header
  | notFormatted  -- header not formatted correctly
  | badStatus     -- unexpected status value
  | metaTooLong   -- meta string is too long
deriving DecidableEq

/-- Result of getHeader; outOfRange models a Go runtime index-out-of-range
fault, which aborts instead of returning an error value. -/
inductive HeaderResult
  | outOfRange
  | err (e : HeaderError)
  | ok (h : Header)
deriving DecidableEq

/-- Continuation of getHeader after the format check: fields[0] is read
(a fault when there are no fields), parsed with Atoi, and the meta is the
line past the first field unless the line has at most 3 bytes. -/
def getHeaderNum (line : List Nat) (fs : List (List Nat)) : HeaderResult :=
  match fs with
  | [] => .outOfRange
  | f0 :: _ =>
    match atoi f0 with
    | .error _ => .err .badStatus
    | .ok status =>
      let meta := if line.length ≤ 3 then [] else line.drop (f0.length + 1)
      if meta.length > MetaMaxLength then .err .metaTooLong
      else .ok ⟨status, meta⟩

/-- Models the body of getHeader (client.go) applied to the CRLF-stripped
line: when there are fewer than two fields the last byte of the line is
inspected (a fault when the line is empty), and a last byte other than a
space is a formatting error. -/
def getHeaderLine (line : List Nat) : HeaderResult :=
  let fs := fields line
  if fs.length < 2 then
    match line.getLast? with
    | none => .outOfRange
    | some b => if b ≠ 32 then .err .notFormatted else getHeaderNum line fs
  else getHeaderNum line fs

/-- Models getHeader (client.go) on a finite input stream. -/
def getHeader (input : List Nat) : HeaderResult :=
  match readHeader input with
  | .error _ => .err .readFail
  | .ok line => getHeaderLine line

/-- Decimal digit bytes of a natural number, most significant first;
the fuel argument only bounds the recursion. -/
def uitoaAux : Nat → Nat → List Nat → List Nat
  | 0, _, acc => acc
  | fuel + 1, n, acc =>
    if n < 10 then (48 + n) :: acc
    else uitoaAux fuel (n / 10) ((48 + n % 10) :: acc)

/-- Decimal digit bytes of a natural number. -/
def uitoa (n : Nat) : List Nat := uitoaAux (n + 1) n []

/-- Models the %d formatting of an int by fmt.Fprintf. -/
def itoa (i : Int) : List Nat :=
  if i < 0 then 45 :: uitoa (-i).toNat else uitoa i.toNat

/-- Models the header write of writeResponse (server code):
fmt.Fprintf(conn, the status in decimal, a space, the meta, CRLF). -/
def writeResponseHeader (status : Int) (meta : List Nat) : List Nat :=
  itoa status ++ [32] ++ meta ++ [13, 10]

/-- Models strings.TrimSuffix(host, "."): drops one trailing dot byte if
present. -/
def trimSuffixDot (s : List Nat) : List Nat :=
  if s.getLast? = some 46 then s.dropLast else s

/-- The per-byte case fold of toLowerCaseASCII (vendor.go). -/
def lowerByte (b : Nat) : Nat := if 65 ≤ b ∧ b ≤ 90 then b + 32 else b

/-- Byte-level model of toLowerCaseASCII (vendor.go): ASCII uppercase bytes
are shifted to lowercase and every other byte is unchanged. The Go fast path
that returns the input when it has no uppercase ASCII is extensionally this
same map, so a single map is faithful. -/
def toLowerCaseASCII (s : List Nat) : List Nat :=
  s.map lowerByte

/-- Models strings.Split(s, sep) for a one-byte separator d: splits at every
occurrence, keeping empty parts, and yields one part for an empty input. -/
def splitByte (d : Nat) : List Nat → List (List Nat)
  | [] => [[]]
  | b :: rest =>
    if b = d then [] :: splitByte d rest
    else
      match splitByte d rest with
      | [] => [[b]]
      | p :: ps => (b :: p) :: ps

/-- The per-byte test of the inner loop of validHostname (vendor.go):
lowercase letter, digit, uppercase letter, hyphen not at index 0 of the
label, or underscore; j is the byte index within the label. -/
def validLabelByte (j b : Nat) : Bool :=
  (decide (97 ≤ b) && decide (b ≤ 122)) || (decide (48 ≤ b) && decide (b ≤ 57)) ||
  (decide (65 ≤ b) && decide (b ≤ 90)) || (decide (b = 45) && !(decide (j = 0))) ||
  decide (b = 95)

/-- The inner loop of validHostname over one label, starting at index j. -/
def validLabelFrom (j : Nat) : List Nat → Bool
  | [] => true
  | b :: rest => validLabelByte j b && validLabelFrom (j + 1) rest

/-- The outer loop of validHostname over the dot-separated parts; i is the
part index: an empty label fails, a sole leading asterisk is allowed only
for patterns, and otherwise every byte of the label is checked. -/
def validParts (isPattern : Bool) (i : Nat) : List (List Nat) → Bool
  | [] => true
  | part :: rest =>
    if part = [] then false
    else if isPattern && decide (i = 0) && decide (part = [42]) then
      validParts isPattern (i + 1) rest
    else validLabelFrom 0 part && validParts isPattern (i + 1) rest

/-- Models validHostname (vendor.go): a trailing dot is stripped from
non-patterns, the result must be non-empty, and every dot-separated label
must pass the label checks. -/
def validHostname (host : List Nat) (isPattern : Bool) : Bool :=
  let host := if isPattern then host else trimSuffixDot host
  if host.length = 0 then false
  else validParts isPattern 0 (splitByte 46 host)

/-- Models validHostnamePattern (vendor.go). -/
def validHostnamePattern (host : List Nat) : Bool := validHostname host true

/-- Models validHostnameInput (vendor.go). -/
def validHostnameInput (host : List Nat) : Bool := validHostname host false

/-- The comparison loop of matchHostnames (vendor.go); i is the label index,
and the two lists always have equal length when the loop is entered. -/
def matchParts (i : Nat) : List (List Nat) → List (List Nat) → Bool
  | [], [] => true
  | p :: ps, h :: hs =>
    if decide (i = 0) && decide (p = [42]) then matchParts (i + 1) ps hs
    else if p = h then matchParts (i + 1) ps hs
    else false
  | _, _ => false

/-- Models matchHostnames (vendor.go): both sides are case-folded, one
trailing dot is stripped from the host, empty sides never match, the label
counts must agree, and labels are compared pairwise with a leading pattern
asterisk accepted. -/
def matchHostnames (pattern host : List Nat) : Bool :=
  let pattern := toLowerCaseASCII pattern
  let host := toLowerCaseASCII (trimSuffixDot host)
  if pattern.length = 0 ∨ host.length = 0 then false
  else
    let patternParts := splitByte 46 pattern
    let hostParts := splitByte 46 host
    if ¬(patternParts.length = hostParts.length) then false
    else matchParts 0 patternParts hostParts

/-- Models matchExactly (vendor.go). -/
def matchExactly (hostA hostB : List Nat) : Bool :=
  if hostA = [] ∨ hostA = [46] ∨ hostB = [] ∨ hostB = [46] then false
  else decide (toLowerCaseASCII hostA = toLowerCaseASCII hostB)

/-- Modelled from the spec sentence on the matching policy, as the label
relation between the case-folded pattern labels and the case-folded host
labels: the label counts are equal, and at every position the labels are
identical, except that the first pattern label may be the sole asterisk, in
which case it matches any single non-empty host label. -/
def labelsMatchSpec (patternParts hostParts : List (List Nat)) : Prop :=
  patternParts.length = hostParts.length ∧
  ∀ i, i < patternParts.length →
    (i = 0 ∧ patternParts[i]? = some [42] ∧ ∃ l, hostParts[i]? = some l ∧ ¬l = []) ∨
    patternParts[i]? = hostParts[i]?

/-- The capability snapshot of an x509.Certificate that verifyHostname and
the connection checks read: SAN DNS names, SAN IP addresses (raw 4- or
16-byte values), Subject.CommonName, the list of extension OIDs, and the
validity window (instants as integers). -/
structure Certificate where
  dnsNames : List (List Nat)
  ipAddresses : List (List Nat)
  commonName : List Nat
  extensions : List (List Nat)
  notBefore : Int
  notAfter : Int
deriving DecidableEq

/-- The subject-alternative-name extension OID (vendor.go). -/
def oidExtensionSubjectAltName : List Nat := [2, 5, 29, 17]

/-- Models hasSANExtension (vendor.go): some extension has the SAN OID. -/
def hasSANExtension (c : Certificate) : Bool :=
  c.extensions.any (fun e => decide (e = oidExtensionSubjectAltName))

/-- Models commonNameAsHostname (vendor.go). -/
def commonNameAsHostname (c : Certificate) : Bool :=
  !hasSANExtension c && validHostnamePattern c.commonName

/-- Models the dtoi helper of the net package: longest decimal prefix, with
the 0xFFFFFF overflow cap; returns the value, the bytes consumed, and an
ok flag. -/
def dtoiAux (n i : Nat) : List Nat → Nat × Nat × Bool
  | [] => if i = 0 then (0, 0, false) else (n, i, true)
  | b :: rest =>
    if 48 ≤ b ∧ b ≤ 57 then
      let n2 := n * 10 + (b - 48)
      if 16777215 ≤ n2 then (16777215, i, false) else dtoiAux n2 (i + 1) rest
    else if i = 0 then (0, 0, false) else (n, i, true)

def dtoi (s : List Nat) : Nat × Nat × Bool := dtoiAux 0 0 s

/-- Models the xtoi helper of the net package: longest hexadecimal prefix,
returning 0 with ok set to false on overflow past 0xFFFFFF. -/
def xtoiAux (n i : Nat) : List Nat → Nat × Nat × Bool
  | [] => if i = 0 then (0, 0, false) else (n, i, true)
  | b :: rest =>
    let d : Option Nat :=
      if 48 ≤ b ∧ b ≤ 57 then some (b - 48)
      else if 97 ≤ b ∧ b ≤ 102 then some (b - 97 + 10)
      else if 65 ≤ b ∧ b ≤ 70 then some (b - 65 + 10)
      else none
    match d with
    | none => if i = 0 then (0, 0, false) else (n, i, true)
    | some v =>
      let n2 := n * 16 + v
      if 16777215 ≤ n2 then (0, i, false) else xtoiAux n2 (i + 1) rest

def xtoi (s : List Nat) : Nat × Nat × Bool := xtoiAux 0 0 s

/-- The 12-byte prefix marking an IPv4 address stored in 16-byte form. -/
def v4InV6Prefix : List Nat := [0, 0, 0, 0, 0, 0, 0, 0, 0, 0, 255, 255]

/-- One field of parseIPv4 per recursive step (models the loop of the net
parseIPv4 of the net package: a leading dot is required after the first field, then
dtoi must succeed with a value of at most 255); count fields remain. -/
def parseIPv4Aux : Nat → Bool → List Nat → Option (List Nat)
  | 0, _, s => if s = [] then some [] else none
  | count + 1, first, s =>
    if s = [] then none
    else
      match if first then some s else (match s with | 46 :: r => some r | _ => none) with
      | none => none
      | some s1 =>
        match dtoi s1 with
        | (n, c, ok) =>
          if ok = false ∨ 255 < n then none
          else
            match parseIPv4Aux count false (s1.drop c) with
            | none => none
            | some rest => some (n :: rest)

/-- Models parseIPv4 of the net package; the result is the 16-byte form
that the IPv4 constructor returns. -/
def parseIPv4 (s : List Nat) : Option (List Nat) :=
  match parseIPv4Aux 4 true s with
  | some [a, b, c, d] => some (v4InV6Prefix ++ [a, b, c, d])
  | _ => none

/-- Index of the last occurrence of byte b in s, if any. -/
def lastIdxOf (b : Nat) : List Nat → Option Nat
  | [] => none
  | x :: rest =>
    match lastIdxOf b rest with
    | some i => some (i + 1)
    | none => if x = b then some 0 else none

/-- Models splitHostZone of the net package: the part before the last
percent sign, when that sign is not the first byte. -/
def stripZone (s : List Nat) : List Nat :=
  match lastIdxOf 37 s with
  | some i => if 0 < i then s.take i else s
  | none => s

/-- End of the parseIPv6 loop of the net package: any unconsumed input is an
error; fewer than 16 bytes require an ellipsis, which pads with zeros at its
position; a full 16 bytes forbid an ellipsis. -/
def parseIPv6Finish (i : Nat) (ip : List Nat) (ell : Option Nat) (s : List Nat) :
    Option (List Nat) :=
  if ¬(s = []) then none
  else if i < 16 then
    match ell with
    | none => none
    | some e => some (ip.take e ++ List.replicate (16 - i) 0 ++ ip.drop e)
  else
    match ell with
    | none => some ip
    | some _ => none

/-- The main loop of parseIPv6 of the net package. State: bytes filled i,
bytes so far ip, ellipsis position ell, remaining input s; the fuel only
bounds the recursion (each pass fills at least 2 bytes). -/
def parseIPv6Loop : Nat → Nat → List Nat → Option Nat → List Nat → Option (List Nat)
  | 0, i, ip, ell, s => parseIPv6Finish i ip ell s
  | fuel + 1, i, ip, ell, s =>
    if 16 ≤ i then parseIPv6Finish i ip ell s
    else
      match xtoi s with
      | (n, c, ok) =>
        if ok = false ∨ 65535 < n then none
        else if s[c]? = some 46 then
          if (ell = none ∧ ¬(i = 12)) ∨ 16 < i + 4 then none
          else
            match parseIPv4 s with
            | none => none
            | some ip4 => parseIPv6Finish (i + 4) (ip ++ ip4.drop 12) ell []
        else
          let ip := ip ++ [n / 256, n % 256]
          let i := i + 2
          let s := s.drop c
          if s = [] then parseIPv6Finish i ip ell []
          else if ¬(s.head? = some 58) ∨ s.length = 1 then none
          else
            let s := s.drop 1
            if s.head? = some 58 then
              if ¬(ell = none) then none
              else
                let s := s.drop 1
                if s = [] then parseIPv6Finish i ip (some i) []
                else parseIPv6Loop fuel i ip (some i) s
            else parseIPv6Loop fuel i ip ell s

/-- Models parseIPv6Zone followed by parseIPv6 of the net package: the zone
suffix is dropped, a leading double colon records an ellipsis at 0 (alone it
denotes the all-zero address), and the loop consumes the rest. -/
def parseIPv6 (s0 : List Nat) : Option (List Nat) :=
  let s := stripZone s0
  if 2 ≤ s.length ∧ s.head? = some 58 ∧ (s.drop 1).head? = some 58 then
    let s2 := s.drop 2
    if s2 = [] then some (List.replicate 16 0)
    else parseIPv6Loop 9 0 [] (some 0) s2
  else parseIPv6Loop 9 0 [] none s

/-- Models net.ParseIP: scan for the first dot or colon and dispatch to the
IPv4 or IPv6 parser. -/
def parseIPScan (orig : List Nat) : List Nat → Option (List Nat)
  | [] => none
  | b :: rest =>
    if b = 46 then parseIPv4 orig
    else if b = 58 then parseIPv6 orig
    else parseIPScan orig rest

def parseIP (s : List Nat) : Option (List Nat) := parseIPScan s s

/-- Models net.IP.Equal: equal length representations compare byte-wise, and
a 4-byte value equals a 16-byte value with the v4-in-v6 prefix and the same
last 4 bytes. -/
def ipEqual (a b : List Nat) : Bool :=
  if a.length = b.length then decide (a = b)
  else if a.length = 4 ∧ b.length = 16 then
    decide (b.take 12 = v4InV6Prefix) && decide (a = b.drop 12)
  else if a.length = 16 ∧ b.length = 4 then
    decide (a.take 12 = v4InV6Prefix) && decide (a.drop 12 = b)
  else false

/-- The bracket-stripping step at the top of verifyHostname (vendor.go). -/
def candidateIPOf (h : List Nat) : List Nat :=
  if 3 ≤ h.length ∧ h.head? = some 91 ∧ h.getLast? = some 93 then (h.drop 1).dropLast
  else h

/-- Models verifyHostname (vendor.go); true models the nil (success) return
and false models the x509.HostnameError return. An IP-literal host is
matched only against the certificate IP list. Otherwise the candidate set
is the DNS names, or the common name alone under the legacy fallback, and
each candidate is matched with the wildcard rules when both sides are valid
hostnames and byte-for-byte (after folding) otherwise. -/
def verifyHostname (c : Certificate) (h : List Nat) : Bool :=
  match parseIP (candidateIPOf h) with
  | some ip => c.ipAddresses.any (fun candidate => ipEqual ip candidate)
  | none =>
    let names := if commonNameAsHostname c then [c.commonName] else c.dnsNames
    let candidateName := toLowerCaseASCII h
    let validCandidateName := validHostnameInput candidateName
    names.any (fun m =>
      if validCandidateName && validHostnamePattern m then matchHostnames m candidateName
      else matchExactly m candidateName)

/-- The error returns of the verification part of Client.connect
(client.go), in source order. -/
inductive ConnectError
  | uniConversionFailed -- punycoded hostname does not verify and could not be converted
  | hostnameMismatchUni -- hostname does not verify (the Unicode form also failed)
  | hostnameMismatch    -- hostname does not verify (reached after the Unicode form verified)
  | certFuture          -- server cert is for the future
  | certExpired         -- server cert is expired
deriving DecidableEq

/-- Result of the verification part of Client.connect. The rejected case
records whether Close was called on the established TLS connection before
the error return; the source has no Close call on any of these paths, so
every rejection in the model carries false. -/
inductive ConnectResult
  | accepted
  | rejected (e : ConnectError) (connClosed : Bool)
deriving DecidableEq

/-- Models the checks Client.connect (client.go) runs after the TLS session
is established, on the peer certificate. hostname is the connection host
without the port; uni is the result of idna.ToUnicode on it (an oracle
input, since the IDNA tables are outside the model); now is the current
instant. Source order: Insecure skips everything; then unless
NoHostnameCheck, the hostname must verify, and when it does not, the
Unicode form is tried, but every branch of that fallback — including the
one in which the Unicode form verified — returns an error; then unless
NoTimeCheck, the validity window is checked. -/
def connectVerify (insecure noHostnameCheck noTimeCheck : Bool) (c : Certificate)
    (hostname : List Nat) (uni : Except Unit (List Nat)) (now : Int) : ConnectResult :=
  if insecure then .accepted
  else if ¬noHostnameCheck ∧ verifyHostname c hostname = false then
    match uni with
    | .error _ => .rejected .uniConversionFailed false
    | .ok uniHost =>
      if verifyHostname c uniHost = false then .rejected .hostnameMismatchUni false
      else .rejected .hostnameMismatch false
  else if ¬noTimeCheck ∧ now < c.notBefore then .rejected .certFuture false
  else if ¬noTimeCheck ∧ c.notAfter < now then .rejected .certExpired false
  else .accepted

/-- Errors FetchWithHostAndCert (client.go) can return before dialing. -/
inductive FetchError
  | punycodeURLFail -- error when punycoding URL
  | urlTooLong      -- url is too long
  | punycodeHostFail -- failed to punycode host
  | certPEMFail     -- failed to parse cert/key PEM
deriving DecidableEq

/-- Outcome of the phase of FetchWithHostAndCert before the connection is
dialed: either an early error, or the host and URL with which c.connect is
then called. -/
inductive FetchStep
  | failedBeforeDial (e : FetchError)
  | readyToDial (host : List Nat) (u : List Nat)
deriving DecidableEq

/-- Models net.JoinHostPort(host, the default port 1965). -/
def joinPort1965 (host : List Nat) : List Nat := host ++ strBytes (":1965")

/-- Models the part of FetchWithHostAndCert (client.go) that runs before
tls.DialWithDialer: GetPunycodeURL on the raw URL (oracle input puny, since
IDNA is outside the model), the URLMaxLength check on the punycoded URL,
appending the default port when the host has none, punycoding the host
(oracle input punyHost), and building the client certificate from the PEM
bytes (oracle certParseOk for tls.X509KeyPair). Only after all of this does
the caller dial. -/
def fetchPreDial (puny : Except Unit (List Nat)) (hostHasPort : Bool) (host : List Nat)
    (punyHost : Except Unit (List Nat)) (certPEM keyPEM : List Nat)
    (certParseOk : Bool) : FetchStep :=
  match puny with
  | .error _ => .failedBeforeDial .punycodeURLFail
  | .ok u =>
    if URLMaxLength < u.length then .failedBeforeDial .urlTooLong
    else
      let _host1 := if hostHasPort then host else joinPort1965 host
      match punyHost with
      | .error _ => .failedBeforeDial .punycodeHostFail
      | .ok host2 =>
        if certPEM = [] ∧ keyPEM = [] then .readyToDial host2 u
        else if certParseOk then .readyToDial host2 u
        else .failedBeforeDial .certPEMFail

/-- A certificate whose SAN extension lists the single wildcard DNS name
of scenario A. -/
def certWildcard : Certificate :=
  ⟨[strBytes ("*.example.com")], [], [], [oidExtensionSubjectAltName], 0, 0⟩

/-- A certificate with no SAN extension whose common name is the valid
hostname of scenario B. -/
def certNoSAN : Certificate := ⟨[], [], strBytes ("example.com"), [], 0, 0⟩

/-- A certificate with the same common name but with a SAN extension
listing only an unrelated DNS name. -/
def certUnrelatedSAN : Certificate :=
  ⟨[strBytes ("unrelated.org")], [], strBytes ("example.com"),
    [oidExtensionSubjectAltName], 0, 0⟩

/-- A certificate holding the single IP address 127.0.0.1 (4-byte form). -/
def certIP : Certificate := ⟨[], [[127, 0, 0, 1]], [], [oidExtensionSubjectAltName], 0, 0⟩

/-- A certificate whose only DNS name is the one-character Unicode
hostname a-umlaut. The model is byte-level and represents the name by the
single entry 228: every byte above 127 fails the hostname grammar and is
unchanged by ASCII case folding, exactly as the multi-byte UTF-8 form is in
the Go code, so the two representations behave identically in every
function modelled here. idna.ToUnicode of the punycoded host xn--4ca
yields this name. -/
def certUnicode : Certificate := ⟨[[228]], [], [], [oidExtensionSubjectAltName], 0, 0⟩

/-- A certificate whose only DNS name does not match the host used with it
(for the hostname-failure connection scenario); valid from 0 to 100. -/
def certOther : Certificate :=
  ⟨[strBytes ("other.example")], [], [], [oidExtensionSubjectAltName], 0, 100⟩

/-- A certificate matching its host but expired after instant 10. -/
def certExpired : Certificate :=
  ⟨[strBytes ("example.com")], [], [], [oidExtensionSubjectAltName], 0, 10⟩

/-- Whether the adjacent byte pair CR LF occurs in the list (the condition
under which readHeader terminates inside a line). -/
def hasCRLF : List Nat → Bool
  | [] => false
  | a :: rest => (decide (a = 13) && decide (rest.head? = some 10)) || hasCRLF rest

section HeaderLemmas

theorem getLast?_eq_some_split (l : List Nat) (a : Nat) (h : l.getLast? = some a) :
    ∃ init, l = init ++ [a] := by
  induction l using List.reverseRecOn with
  | nil => simp at h
  | append_singleton init b _ =>
      rw [List.getLast?_concat] at h
      injection h with h
      exact ⟨init, by rw [h]⟩

theorem bytesHasSuffix_crlf_append (l : List Nat) (b : Nat) :
    bytesHasSuffix (l ++ [b]) [13, 10] = true ↔ b = 10 ∧ l.getLast? = some 13 := by
  induction l using List.reverseRecOn with
  | nil => simp [bytesHasSuffix]
  | append_singleton init a _ =>
      have e : (init ++ [a]) ++ [b] = init ++ [a, b] := by simp
      rw [e]
      have hdrop : (init ++ [a, b]).drop ((init ++ [a, b]).length - 2) = [a, b] := by
        have hl : (init ++ [a, b]).length - 2 = init.length := by simp
        rw [hl]
        exact List.drop_left init [a, b]
      unfold bytesHasSuffix
      rw [show ([13, 10] : List Nat).length = 2 from rfl, hdrop]
      simp [List.getLast?_concat]
      tauto

theorem hasCRLF_cons_of_ne (a : Nat) (l : List Nat) (h : ¬a = 13) :
    hasCRLF (a :: l) = hasCRLF l := by
  simp [hasCRLF, h]

theorem hasCRLF_of_split (init rest : List Nat) :
    hasCRLF ((init ++ [13]) ++ 10 :: rest) = true := by
  induction init with
  | nil => simp [hasCRLF]
  | cons a init ih => simpa [hasCRLF] using Or.inr ih

theorem readHeaderAux_spec : ∀ pre acc rest : List Nat,
    hasCRLF (acc ++ pre) = false →
    readHeaderAux acc (pre ++ 13 :: 10 :: rest) = .ok (acc ++ pre) := by
  intro pre
  induction pre with
  | nil =>
      intro acc rest _
      have h1 : bytesHasSuffix (acc ++ [13]) [13, 10] = false := by
        rw [Bool.eq_false_iff]
        intro hb
        exact absurd ((bytesHasSuffix_crlf_append acc 13).mp hb).1 (by omega)
      have h2 : bytesHasSuffix ((acc ++ [13]) ++ [10]) [13, 10] = true := by
        rw [bytesHasSuffix_crlf_append]
        exact ⟨rfl, by simp⟩
      have htake : ((acc ++ [13]) ++ [10]).take (((acc ++ [13]) ++ [10]).length - 2) = acc := by
        have h3 : (acc ++ [13]) ++ [10] = acc ++ [13, 10] := by simp
        rw [h3]
        have h4 : (acc ++ [13, 10]).length - 2 = acc.length := by simp
        rw [h4]
        exact List.take_left acc [13, 10]
      show readHeaderAux acc ([] ++ 13 :: 10 :: rest) = Except.ok (acc ++ [])
      rw [List.nil_append, List.append_nil]
      simp only [readHeaderAux, h1, h2, Bool.false_eq_true, if_false, if_true, htake]
  | cons p pre ih =>
      intro acc rest h
      have hsfx : bytesHasSuffix (acc ++ [p]) [13, 10] = false := by
        rw [Bool.eq_false_iff]
        intro hb
        obtain ⟨hp, hlast⟩ := (bytesHasSuffix_crlf_append acc p).mp hb
        obtain ⟨init, hinit⟩ := getLast?_eq_some_split acc 13 hlast
        subst hp
        subst hinit
        rw [hasCRLF_of_split init pre] at h
        simp at h
      show readHeaderAux acc ((p :: pre) ++ 13 :: 10 :: rest) = Except.ok (acc ++ p :: pre)
      rw [List.cons_append]
      have hih := ih (acc ++ [p]) rest (by simpa using h)
      simp only [readHeaderAux, hsfx, Bool.false_eq_true, if_false]
      rw [hih]
      simp

theorem isSpaceByte_digit (b : Nat) (h1 : 48 ≤ b) (h2 : b ≤ 57) : isSpaceByte b = false := by
  simp only [isSpaceByte, Bool.or_eq_false_iff, decide_eq_false_iff_not]
  omega

theorem fields_ascii (s : List Nat) (h : ∀ b ∈ s, b < 128) : fields s = fieldsAux [] s := by
  unfold fields
  have hany : s.any (fun b => decide (128 ≤ b)) = false := by
    rw [List.any_eq_false]
    intro b hb
    have hb2 := h b hb
    simp only [decide_eq_true_eq]
    omega
  rw [hany]
  simp

theorem ascii_statusLine (d1 d2 : Nat) (meta : List Nat) (h2 : d1 ≤ 57) (h4 : d2 ≤ 57)
    (hm : ∀ b ∈ meta, b < 128) : ∀ b ∈ d1 :: d2 :: 32 :: meta, b < 128 := by
  intro b hb
  simp only [List.mem_cons] at hb
  rcases hb with rfl | rfl | rfl | hb
  · omega
  · omega
  · omega
  · exact hm b hb

theorem fieldsAux_statusLine (d1 d2 : Nat) (h1 : 48 ≤ d1) (h2 : d1 ≤ 57) (h3 : 48 ≤ d2)
    (h4 : d2 ≤ 57) (meta : List Nat) :
    fieldsAux [] (d1 :: d2 :: 32 :: meta) = [d1, d2] :: fieldsAux [] meta := by
  have hd1 : isSpaceByte d1 = false := isSpaceByte_digit d1 h1 h2
  have hd2 : isSpaceByte d2 = false := isSpaceByte_digit d2 h3 h4
  simp [fieldsAux, hd1, hd2, show isSpaceByte 32 = true from rfl]

theorem fieldsAux_ne_nil (s : List Nat) : ∀ acc, ¬acc = [] → ¬fieldsAux acc s = [] := by
  induction s with
  | nil => intro acc h; simp [fieldsAux, h]
  | cons b rest ih =>
      intro acc h
      by_cases hs : isSpaceByte b = true
      · simp [fieldsAux, hs, h]
      · rw [Bool.not_eq_true] at hs
        simp only [fieldsAux, hs, Bool.false_eq_true, if_false]
        exact ih (b :: acc) (by simp)

theorem fieldsAux_eq_nil_iff (s : List Nat) :
    fieldsAux [] s = [] ↔ ∀ b ∈ s, isSpaceByte b = true := by
  induction s with
  | nil => simp [fieldsAux]
  | cons b rest ih =>
      by_cases hs : isSpaceByte b = true
      · simpa [fieldsAux, hs] using ih
      · rw [Bool.not_eq_true] at hs
        simp only [fieldsAux, hs, Bool.false_eq_true, if_false, List.mem_cons]
        constructor
        · intro h
          exact absurd h (fieldsAux_ne_nil rest [b] (by simp))
        · intro h
          exact absurd (h b (Or.inl rfl)) (by simp [hs])

theorem getLast?_statusLine (d1 d2 : Nat) (meta : List Nat) :
    (d1 :: d2 :: 32 :: meta).getLast? = if meta = [] then some 32 else meta.getLast? := by
  cases meta with
  | nil => rfl
  | cons m ms =>
      simp only [if_neg (by simp : ¬(m :: ms : List Nat) = [])]
      rw [List.getLast?_cons_cons, List.getLast?_cons_cons, List.getLast?_cons_cons]

theorem atoi_two_digits (d1 d2 : Nat) (h1 : 48 ≤ d1) (h2 : d1 ≤ 57) (h3 : 48 ≤ d2)
    (h4 : d2 ≤ 57) :
    atoi [d1, d2] = .ok (((d1 - 48) * 10 + (d2 - 48) : Nat) : Int) := by
  unfold atoi
  have hsn : ¬(d1 = 43 ∨ d1 = 45) := by omega
  have hneg : decide (d1 = 45) = false := by simp; omega
  simp only [hsn, if_false, hneg, digitsVal, if_pos (by omega : 48 ≤ d1 ∧ d1 ≤ 57),
    if_pos (by omega : 48 ≤ d2 ∧ d2 ≤ 57), Bool.false_eq_true, if_neg (by simp : ¬([d1, d2] : List Nat) = [])]
  norm_num

theorem getHeaderLine_statusLine (d1 d2 : Nat) (meta : List Nat)
    (h1 : 48 ≤ d1) (h2 : d1 ≤ 57) (h3 : 48 ≤ d2) (h4 : d2 ≤ 57)
    (hascii : ∀ b ∈ meta, b < 128)
    (hfmt : meta = [] ∨ meta.getLast? = some 32 ∨ ∃ b ∈ meta, isSpaceByte b = false) :
    getHeaderLine (d1 :: d2 :: 32 :: meta) =
      if MetaMaxLength < meta.length then .err .metaTooLong
      else .ok ⟨((d1 - 48) * 10 + (d2 - 48) : Nat), meta⟩ := by
  have hnum : getHeaderNum (d1 :: d2 :: 32 :: meta) ([d1, d2] :: fieldsAux [] meta) =
      if MetaMaxLength < meta.length then .err .metaTooLong
      else .ok ⟨((d1 - 48) * 10 + (d2 - 48) : Nat), meta⟩ := by
    simp only [getHeaderNum, atoi_two_digits d1 d2 h1 h2 h3 h4]
    cases meta with
    | nil => simp [MetaMaxLength]
    | cons m ms =>
        have hlen : ¬(d1 :: d2 :: 32 :: m :: ms).length ≤ 3 := by simp
        simp only [hlen, if_false, List.length_cons, List.drop_succ_cons, List.drop_zero,
          show ([d1, d2] : List Nat).length + 1 = 3 from rfl]
        rfl
  unfold getHeaderLine
  rw [fields_ascii (d1 :: d2 :: 32 :: meta) (ascii_statusLine d1 d2 meta h2 h4 hascii),
    fieldsAux_statusLine d1 d2 h1 h2 h3 h4 meta]
  by_cases hfm : fieldsAux [] meta = []
  · have hl : (([d1, d2] :: fieldsAux [] meta).length < 2) = True := by simp [hfm]
    simp only [hl, if_true]
    have hlast : (d1 :: d2 :: 32 :: meta).getLast? = some 32 := by
      rw [getLast?_statusLine]
      rcases hfmt with h | h | h
      · simp [h]
      · cases meta with
        | nil => simp
        | cons m ms => simp [h]
      · obtain ⟨b, hb, hbs⟩ := h
        have := (fieldsAux_eq_nil_iff meta).mp hfm b hb
        rw [this] at hbs
        exact absurd hbs (by simp)
    rw [hlast]
    simp only [if_neg (by simp : ¬(32 : Nat) ≠ 32)]
    exact hnum
  · have hl : ¬(([d1, d2] :: fieldsAux [] meta).length < 2) := by
      have := List.length_pos.mpr hfm
      simp only [List.length_cons]
      omega
    simp only [hl, if_false]
    exact hnum

theorem hasCRLF_statusLine (d1 d2 : Nat) (meta : List Nat) (h1 : 48 ≤ d1) (h3 : 48 ≤ d2)
    (hcrlf : hasCRLF meta = false) : hasCRLF (d1 :: d2 :: 32 :: meta) = false := by
  rw [hasCRLF_cons_of_ne d1 _ (by omega), hasCRLF_cons_of_ne d2 _ (by omega),
    hasCRLF_cons_of_ne 32 _ (by omega), hcrlf]

theorem getHeader_statusLine (d1 d2 : Nat) (meta : List Nat)
    (h1 : 48 ≤ d1) (h2 : d1 ≤ 57) (h3 : 48 ≤ d2) (h4 : d2 ≤ 57)
    (hascii : ∀ b ∈ meta, b < 128)
    (hcrlf : hasCRLF meta = false)
    (hfmt : meta = [] ∨ meta.getLast? = some 32 ∨ ∃ b ∈ meta, isSpaceByte b = false) :
    getHeader ((d1 :: d2 :: 32 :: meta) ++ [13, 10]) =
      if MetaMaxLength < meta.length then .err .metaTooLong
      else .ok ⟨((d1 - 48) * 10 + (d2 - 48) : Nat), meta⟩ := by
  unfold getHeader readHeader
  have hr := readHeaderAux_spec (d1 :: d2 :: 32 :: meta) [] []
    (by simpa using hasCRLF_statusLine d1 d2 meta h1 h3 hcrlf)
  rw [show (d1 :: d2 :: 32 :: meta) ++ [13, 10] = (d1 :: d2 :: 32 :: meta) ++ 13 :: 10 :: []
    from rfl, hr]
  simp only [List.nil_append]
  exact getHeaderLine_statusLine d1 d2 meta h1 h2 h3 h4 hascii hfmt

theorem uitoa_two_digits : ∀ n < 100, 10 ≤ n → uitoa n = [48 + n / 10, 48 + n % 10] := by
  decide

theorem getHeader_nbsp_meta_rejected :
    fields [50, 48, 32, 194, 160] = [[50, 48]] ∧
    getHeader ((50 :: 48 :: 32 :: [194, 160]) ++ [13, 10]) = .err .notFormatted := by decide

theorem hasCRLF_of_no_cr (meta : List Nat) (h : ∀ b ∈ meta, ¬b = 13) :
    hasCRLF meta = false := by
  induction meta with
  | nil => rfl
  | cons a rest ih =>
      rw [hasCRLF_cons_of_ne a rest (h a (by simp))]
      exact ih (fun b hb => h b (by simp [hb]))

theorem getLast?_all_eq : ∀ (meta : List Nat) (v : Nat), ¬meta = [] →
    (∀ b ∈ meta, b = v) → meta.getLast? = some v := by
  intro meta v
  induction meta with
  | nil => intro h; exact absurd rfl h
  | cons x xs ih =>
      intro _ hall
      cases hxs : xs with
      | nil =>
          subst hxs
          simp [hall x (by simp)]
      | cons y ys =>
          subst hxs
          rw [List.getLast?_cons_cons]
          exact ih (by simp) (fun b hb => hall b (by simp [hb]))

end HeaderLemmas

section HeaderClaims

/-- C3 (amended): for every well-formed header line made of a two-digit
status, a space, and a CRLF-free ASCII meta of at most 1024 bytes that is
empty, ends in a space, or contains a non-white-space byte, getHeader
returns a meta equal to everything after the first space of the line (on
ASCII input strings.Fields uses the asciiSpace table, where the byte model
is exact); the line whose status is followed by a single space and then
CRLF parses with status 20 and empty meta, while the bare status line with
no trailing space — which the original claim says parses successfully — is
rejected as not formatted correctly. -/
theorem claim3_meta_after_first_space :
    (∀ d1 d2 meta, 48 ≤ d1 → d1 ≤ 57 → 48 ≤ d2 → d2 ≤ 57 →
      (∀ b ∈ meta, b < 128) →
      hasCRLF meta = false →
      (meta = [] ∨ meta.getLast? = some 32 ∨ ∃ b ∈ meta, isSpaceByte b = false) →
      meta.length ≤ MetaMaxLength →
      getHeader ((d1 :: d2 :: 32 :: meta) ++ [13, 10]) =
        .ok ⟨((d1 - 48) * 10 + (d2 - 48) : Nat), meta⟩)
    ∧ getHeader [50, 48, 32, 13, 10] = .ok ⟨20, []⟩
    ∧ getHeader [50, 48, 13, 10] = .err .notFormatted := by
  refine ⟨?_, by decide, by decide⟩
  intro d1 d2 meta h1 h2 h3 h4 hascii hcrlf hfmt hlen
  rw [getHeader_statusLine d1 d2 meta h1 h2 h3 h4 hascii hcrlf hfmt, if_neg (by omega)]

/-- C3 counterexample: the input consisting of the two status digits 20
immediately followed by CRLF is rejected by getHeader with the
header-not-formatted-correctly error, refuting the claim that it parses
successfully with status 20 and empty meta. -/
theorem claim3_cex_bare_status_rejected :
    getHeader [50, 48, 13, 10] = .err .notFormatted ∧
    ¬getHeader [50, 48, 13, 10] = .ok ⟨20, []⟩ := by decide

/-- C3 witness: a concrete well-formed line. -/
theorem claim3_witness :
    getHeader ((50 :: 48 :: 32 :: strBytes ("text/gemini")) ++ [13, 10]) =
      .ok ⟨((50 - 48) * 10 + (48 - 48) : Nat), strBytes ("text/gemini")⟩ :=
  claim3_meta_after_first_space.1 50 48 (strBytes ("text/gemini")) (by decide) (by decide)
    (by decide) (by decide) (by decide) (by decide)
    (Or.inr (Or.inr ⟨116, by decide, by decide⟩)) (by decide)

/-- C7 (amended): for every status in 10..69 and every meta of at most 1024
bytes whose bytes are ASCII and include none of the white-space controls
TAB, LF, VT, FF, CR, parsing the header line serialized by the response
writer yields exactly the status and meta. -/
theorem claim7_header_roundtrip :
    ∀ (s : Int) (meta : List Nat), 10 ≤ s → s ≤ 69 → meta.length ≤ MetaMaxLength →
    (∀ b ∈ meta, b < 128 ∧ (b < 9 ∨ 13 < b)) →
    getHeader (writeResponseHeader s meta) = .ok ⟨s, meta⟩ := by
  intro s meta hlo hhi hlen hbytes
  have hn10 : 10 ≤ s.toNat := by omega
  have hn69 : s.toNat ≤ 69 := by omega
  have hitoa : itoa s = [48 + s.toNat / 10, 48 + s.toNat % 10] := by
    unfold itoa
    rw [if_neg (by omega)]
    exact uitoa_two_digits s.toNat (by omega) hn10
  have hw : writeResponseHeader s meta =
      ((48 + s.toNat / 10) :: (48 + s.toNat % 10) :: 32 :: meta) ++ [13, 10] := by
    unfold writeResponseHeader
    rw [hitoa]
    simp
  have hcrlf : hasCRLF meta = false :=
    hasCRLF_of_no_cr meta (fun b hb => by have := hbytes b hb; omega)
  have hfmt : meta = [] ∨ meta.getLast? = some 32 ∨ ∃ b ∈ meta, isSpaceByte b = false := by
    by_cases hall : ∀ b ∈ meta, b = 32
    · by_cases hm : meta = []
      · exact Or.inl hm
      · exact Or.inr (Or.inl (getLast?_all_eq meta 32 hm hall))
    · push_neg at hall
      obtain ⟨b, hb, hb32⟩ := hall
      refine Or.inr (Or.inr ⟨b, hb, ?_⟩)
      have := hbytes b hb
      simp only [isSpaceByte, Bool.or_eq_false_iff, decide_eq_false_iff_not]
      omega
  rw [hw, getHeader_statusLine _ _ meta (by omega) (by omega) (by omega) (by omega)
    (fun b hb => (hbytes b hb).1) hcrlf hfmt, if_neg (by omega)]
  have hval : (((48 + s.toNat / 10 - 48) * 10 + (48 + s.toNat % 10 - 48) : Nat) : Int) = s := by
    have e : (48 + s.toNat / 10 - 48) * 10 + (48 + s.toNat % 10 - 48) = s.toNat := by omega
    rw [e]
    omega
  rw [hval]

/-- C7 counterexample: status 20 with the one-byte meta CR (length 1, in
the claimed range) does not survive the round trip: the serialized bytes
are rejected by getHeader instead of parsing back to the pair. -/
theorem claim7_cex_cr_meta :
    getHeader (writeResponseHeader 20 [13]) = .err .notFormatted ∧
    ¬getHeader (writeResponseHeader 20 [13]) = .ok ⟨20, [13]⟩ := by decide

/-- C7 witness: a concrete round trip. -/
theorem claim7_witness :
    getHeader (writeResponseHeader 20 (strBytes ("text/plain"))) =
      .ok ⟨20, strBytes ("text/plain")⟩ :=
  claim7_header_roundtrip 20 (strBytes ("text/plain")) (by decide) (by decide) (by decide)
    (by decide)

/-- C8 (amended): for every header line with a valid two-digit status field
and a CRLF-free ASCII meta that is empty, ends in a space, or contains a
non-white-space byte (so that the field-count check passes; on ASCII input
strings.Fields uses the asciiSpace table, where the byte model is exact), a
meta of exactly 1024 bytes is accepted and returned, and a meta of 1025
bytes or more is rejected with the meta-too-long error. -/
theorem claim8_meta_length_boundary :
    ∀ d1 d2 meta, 48 ≤ d1 → d1 ≤ 57 → 48 ≤ d2 → d2 ≤ 57 →
    (∀ b ∈ meta, b < 128) →
    hasCRLF meta = false →
    (meta = [] ∨ meta.getLast? = some 32 ∨ ∃ b ∈ meta, isSpaceByte b = false) →
    (meta.length = 1024 →
      getHeader ((d1 :: d2 :: 32 :: meta) ++ [13, 10]) =
        .ok ⟨((d1 - 48) * 10 + (d2 - 48) : Nat), meta⟩)
    ∧ (1025 ≤ meta.length →
      getHeader ((d1 :: d2 :: 32 :: meta) ++ [13, 10]) = .err .metaTooLong) := by
  intro d1 d2 meta h1 h2 h3 h4 hascii hcrlf hfmt
  constructor
  · intro hl
    rw [getHeader_statusLine d1 d2 meta h1 h2 h3 h4 hascii hcrlf hfmt,
      if_neg (by rw [show MetaMaxLength = 1024 from rfl]; omega)]
  · intro hl
    rw [getHeader_statusLine d1 d2 meta h1 h2 h3 h4 hascii hcrlf hfmt,
      if_pos (by rw [show MetaMaxLength = 1024 from rfl]; omega)]

/-- C8 counterexample: the header line with valid status 20 whose meta is
exactly 1024 tab bytes is rejected as not formatted correctly, not
accepted, refuting the claim for arbitrary 1024-byte metas (the tab bytes
are all white space, so the line has one field and does not end in a
space). -/
theorem claim8_cex_whitespace_meta :
    (List.replicate 1024 9).length = 1024 ∧
    getHeader ((50 :: 48 :: 32 :: List.replicate 1024 9) ++ [13, 10]) = .err .notFormatted := by
  refine ⟨by rw [List.length_replicate], ?_⟩
  have hcr : hasCRLF (List.replicate 1024 9) = false :=
    hasCRLF_of_no_cr _ (fun b hb => by rw [List.eq_of_mem_replicate hb]; omega)
  unfold getHeader readHeader
  have hr := readHeaderAux_spec (50 :: 48 :: 32 :: List.replicate 1024 9) [] []
    (by simpa only [List.nil_append] using
      hasCRLF_statusLine 50 48 _ (by omega) (by omega) hcr)
  rw [show (50 :: 48 :: 32 :: List.replicate 1024 9) ++ [13, 10] =
      (50 :: 48 :: 32 :: List.replicate 1024 9) ++ 13 :: 10 :: [] from rfl, hr]
  simp only [List.nil_append]
  unfold getHeaderLine
  rw [fields_ascii (50 :: 48 :: 32 :: List.replicate 1024 9)
      (ascii_statusLine 50 48 _ (by omega) (by omega)
        (fun b hb => by rw [List.eq_of_mem_replicate hb]; omega)),
    fieldsAux_statusLine 50 48 (by omega) (by omega) (by omega) (by omega)]
  have hfm : fieldsAux [] (List.replicate 1024 9) = [] :=
    (fieldsAux_eq_nil_iff _).mpr (fun b hb => by rw [List.eq_of_mem_replicate hb]; rfl)
  have hne : ¬List.replicate 1024 9 = ([] : List Nat) := by
    intro h
    have := congrArg List.length h
    rw [List.length_replicate, List.length_nil] at this
    exact absurd this (by omega)
  have hlast : (50 :: 48 :: 32 :: List.replicate 1024 9).getLast? = some 9 := by
    rw [getLast?_statusLine, if_neg hne]
    exact getLast?_all_eq _ 9 hne (fun b hb => List.eq_of_mem_replicate hb)
  rw [hfm, hlast]
  rfl

/-- C8 witness: a 1024-byte meta of lowercase letters is accepted. -/
theorem claim8_witness :
    getHeader ((50 :: 48 :: 32 :: List.replicate 1024 97) ++ [13, 10]) =
      .ok ⟨((50 - 48) * 10 + (48 - 48) : Nat), List.replicate 1024 97⟩ :=
  (claim8_meta_length_boundary 50 48 (List.replicate 1024 97) (by omega) (by omega) (by omega)
    (by omega)
    (fun b hb => by rw [List.eq_of_mem_replicate hb]; omega)
    (hasCRLF_of_no_cr _ (fun b hb => by rw [List.eq_of_mem_replicate hb]; omega))
    (Or.inr (Or.inr ⟨97, by rw [List.mem_replicate]; exact ⟨by omega, rfl⟩, by decide⟩))).1
    (by rw [List.length_replicate])

/-- C10: on the input stream that begins with the two bytes CR LF, the
header line is empty, and getHeader evaluates line[len(line)-1] on the
empty line: the model reaches the out-of-range fault, not an error value,
so the code can crash on this input rather than return an error. -/
theorem claim10_empty_line_out_of_range :
    readHeader [13, 10] = .ok [] ∧ getHeader [13, 10] = .outOfRange := ⟨rfl, by decide⟩

end HeaderClaims

section HostnameLemmas

theorem lowerByte_eq_46_iff (b : Nat) : lowerByte b = 46 ↔ b = 46 := by
  unfold lowerByte
  split <;> omega

theorem splitByte_ne_nil (d : Nat) (s : List Nat) : ¬splitByte d s = [] := by
  cases s with
  | nil => simp [splitByte]
  | cons b rest =>
      simp only [splitByte]
      by_cases hb : b = d
      · simp [hb]
      · rw [if_neg hb]
        cases h : splitByte d rest with
        | nil => simp
        | cons p ps => simp

theorem splitByte_lower (s : List Nat) :
    splitByte 46 (toLowerCaseASCII s) = (splitByte 46 s).map toLowerCaseASCII := by
  induction s with
  | nil => rfl
  | cons b rest ih =>
      show splitByte 46 (lowerByte b :: toLowerCaseASCII rest) = _
      by_cases hb : b = 46
      · subst hb
        rw [show lowerByte 46 = 46 from rfl]
        simp only [splitByte, if_pos rfl, ih, List.map_cons]
        rfl
      · have hlb : ¬lowerByte b = 46 := fun hc => hb ((lowerByte_eq_46_iff b).mp hc)
        simp only [splitByte, if_neg hlb, if_neg hb, ih]
        obtain ⟨p, ps, hps⟩ : ∃ p ps, splitByte 46 rest = p :: ps := by
          cases h : splitByte 46 rest with
          | nil => exact absurd h (splitByte_ne_nil 46 rest)
          | cons p ps => exact ⟨p, ps, rfl⟩
        rw [hps]
        simp [toLowerCaseASCII]

theorem validParts_parts_ne_nil : ∀ (parts : List (List Nat)) (isPattern : Bool) (i : Nat),
    validParts isPattern i parts = true → ∀ part ∈ parts, ¬part = [] := by
  intro parts
  induction parts with
  | nil => intro _ _ _ part hp; simp at hp
  | cons part rest ih =>
      intro isPattern i h q hq
      simp only [validParts] at h
      by_cases hpe : part = []
      · rw [if_pos hpe] at h
        exact absurd h (by simp)
      · rw [if_neg hpe] at h
        rcases List.mem_cons.mp hq with hqp | hqr
        · rw [hqp]; exact hpe
        · by_cases hw : (isPattern && decide (i = 0) && decide (part = [42])) = true
          · rw [if_pos hw] at h
            exact ih isPattern (i + 1) h q hqr
          · rw [if_neg hw] at h
            exact ih isPattern (i + 1) (Bool.and_elim_right h) q hqr

theorem validHostname_parts (host : List Nat) (isPattern : Bool)
    (h : validHostname host isPattern = true) :
    ¬(if isPattern then host else trimSuffixDot host).length = 0 ∧
    validParts isPattern 0
      (splitByte 46 (if isPattern then host else trimSuffixDot host)) = true := by
  simp only [validHostname] at h
  by_cases hl : (if isPattern then host else trimSuffixDot host).length = 0
  · rw [if_pos hl] at h
    exact absurd h (by simp)
  · rw [if_neg hl] at h
    exact ⟨hl, h⟩

theorem matchParts_pos : ∀ (pp hp : List (List Nat)) (j : Nat), 1 ≤ j →
    (matchParts j pp hp = true ↔ pp = hp) := by
  intro pp
  induction pp with
  | nil =>
      intro hp j _
      cases hp with
      | nil => simp [matchParts]
      | cons h hs => simp [matchParts]
  | cons p ps ih =>
      intro hp j hj
      cases hp with
      | nil => simp [matchParts]
      | cons h hs =>
          have hj0 : decide (j = 0) = false := by
            simp only [decide_eq_false_iff_not]
            omega
          simp only [matchParts, hj0, Bool.false_and, Bool.false_eq_true, if_false]
          by_cases hph : p = h
          · subst hph
            rw [if_pos rfl, ih hs (j + 1) (by omega)]
            simp
          · rw [if_neg hph]
            simp [hph]

theorem list_eq_iff_getElem? (ps hs : List (List Nat)) (hlen : ps.length = hs.length) :
    ps = hs ↔ ∀ i, i < ps.length → ps[i]? = hs[i]? := by
  constructor
  · intro h i _
    rw [h]
  · intro h
    apply List.ext_getElem?
    intro i
    by_cases hi : i < ps.length
    · exact h i hi
    · rw [List.getElem?_eq_none (by omega), List.getElem?_eq_none (by omega)]

theorem matchParts_zero_iff : ∀ pp hp : List (List Nat), pp.length = hp.length →
    (∀ l ∈ hp, ¬l = []) →
    (matchParts 0 pp hp = true ↔ labelsMatchSpec pp hp) := by
  intro pp hp hlen hne
  cases pp with
  | nil =>
      cases hp with
      | nil => simp [matchParts, labelsMatchSpec]
      | cons h hs => simp at hlen
  | cons p ps =>
      cases hp with
      | nil => simp at hlen
      | cons h hs =>
          have hlen2 : ps.length = hs.length := by
            simpa using hlen
          have hmain : matchParts 0 (p :: ps) (h :: hs) = true ↔
              ((p = [42] ∨ p = h) ∧ ps = hs) := by
            simp only [matchParts, show decide ((0 : Nat) = 0) = true from rfl, Bool.true_and]
            by_cases hw : p = [42]
            · rw [if_pos (by simp [hw]), matchParts_pos ps hs 1 (by omega)]
              simp [hw]
            · rw [if_neg (by simp [hw])]
              by_cases hph : p = h
              · rw [if_pos hph, matchParts_pos ps hs 1 (by omega)]
                simp [hph, hw]
              · rw [if_neg hph]
                simp [hph, hw]
          rw [hmain]
          unfold labelsMatchSpec
          constructor
          · rintro ⟨hhead, htail⟩
            refine ⟨by simpa using hlen2, ?_⟩
            intro i hi
            cases i with
            | zero =>
                rcases hhead with hwp | hph
                · exact Or.inl ⟨rfl, by simp [hwp], h, by simp, hne h (by simp)⟩
                · exact Or.inr (by simp [hph])
            | succ k =>
                simp only [List.getElem?_cons_succ]
                exact Or.inr (((list_eq_iff_getElem? ps hs hlen2).mp htail) k
                  (by simpa using hi))
          · rintro ⟨_, hall⟩
            have h0 := hall 0 (by simp)
            have hhead : p = [42] ∨ p = h := by
              rcases h0 with ⟨_, hp42, _⟩ | hph
              · exact Or.inl (by simpa using hp42)
              · exact Or.inr (by simpa using hph)
            refine ⟨hhead, (list_eq_iff_getElem? ps hs hlen2).mpr ?_⟩
            intro k hk
            have hk1 := hall (k + 1) (by simp; omega)
            rcases hk1 with ⟨hk0, _⟩ | heq
            · exact absurd hk0 (by omega)
            · simpa using heq

end HostnameLemmas

section HostnameClaims

/-- C5: whenever pattern and host both satisfy the hostname grammar,
matchHostnames is exactly the label-by-label relation of the spec — equal
label counts, labels identical after case folding, and a sole leading
asterisk in the pattern matching any one non-empty host label — and in
particular verification of www.example.com against the certificate whose
SAN DNS names are exactly the wildcard name succeeds, while verification of
example.com against the same certificate fails. -/
theorem claim5_wildcard_matching :
    (∀ pattern host, validHostnamePattern pattern = true → validHostnameInput host = true →
      (matchHostnames pattern host = true ↔
        labelsMatchSpec (splitByte 46 (toLowerCaseASCII pattern))
          (splitByte 46 (toLowerCaseASCII (trimSuffixDot host)))))
    ∧ verifyHostname certWildcard (strBytes ("www.example.com")) = true
    ∧ verifyHostname certWildcard (strBytes ("example.com")) = false := by
  refine ⟨?_, by decide, by decide⟩
  intro pattern host hp hh
  have hp2 : ¬pattern.length = 0 ∧ validParts true 0 (splitByte 46 pattern) = true :=
    validHostname_parts pattern true hp
  have hh2 : ¬(trimSuffixDot host).length = 0 ∧
      validParts false 0 (splitByte 46 (trimSuffixDot host)) = true :=
    validHostname_parts host false hh
  have hne : ∀ l ∈ splitByte 46 (toLowerCaseASCII (trimSuffixDot host)), ¬l = [] := by
    intro l hl
    rw [splitByte_lower] at hl
    obtain ⟨part, hpart, hpl⟩ := List.mem_map.mp hl
    have hpne := validParts_parts_ne_nil _ false 0 hh2.2 part hpart
    rw [← hpl]
    simpa [toLowerCaseASCII] using hpne
  have hc1 : ¬((toLowerCaseASCII pattern).length = 0 ∨
      (toLowerCaseASCII (trimSuffixDot host)).length = 0) := by
    rw [toLowerCaseASCII, List.length_map, toLowerCaseASCII, List.length_map]
    push_neg
    exact ⟨hp2.1, hh2.1⟩
  simp only [matchHostnames]
  rw [if_neg hc1]
  by_cases hlen : (splitByte 46 (toLowerCaseASCII pattern)).length =
      (splitByte 46 (toLowerCaseASCII (trimSuffixDot host))).length
  · rw [if_neg (fun hcon => hcon hlen)]
    exact matchParts_zero_iff _ _ hlen hne
  · rw [if_pos hlen]
    constructor
    · intro h
      exact absurd h (by simp)
    · intro hspec
      exact absurd hspec.1 hlen

/-- C5 witness: the general matching characterization applied to the
wildcard pattern and host of scenario A. -/
theorem claim5_witness :
    matchHostnames (strBytes ("*.example.com")) (strBytes ("www.example.com")) = true ↔
      labelsMatchSpec (splitByte 46 (toLowerCaseASCII (strBytes ("*.example.com"))))
        (splitByte 46 (toLowerCaseASCII (trimSuffixDot (strBytes ("www.example.com"))))) :=
  claim5_wildcard_matching.1 (strBytes ("*.example.com")) (strBytes ("www.example.com"))
    (by decide) (by decide)

/-- C4: when a certificate has no SAN extension and its common name is a
valid hostname pattern, verifyHostname is independent of the DNS-names
field (the host is matched against the common name alone); when a SAN
extension is present, verifyHostname is independent of the common name; and
concretely, with no SAN extension and common name example.com the host
example.com verifies, while the same common name with a SAN extension
listing only unrelated.org fails. -/
theorem claim4_common_name_fallback :
    (∀ (c : Certificate) (h : List Nat) (dns : List (List Nat)),
      hasSANExtension c = false → validHostnamePattern c.commonName = true →
      verifyHostname { c with dnsNames := dns } h = verifyHostname c h)
    ∧ (∀ (c : Certificate) (h : List Nat) (cn : List Nat),
      hasSANExtension c = true →
      verifyHostname { c with commonName := cn } h = verifyHostname c h)
    ∧ verifyHostname certNoSAN (strBytes ("example.com")) = true
    ∧ verifyHostname certUnrelatedSAN (strBytes ("example.com")) = false := by
  refine ⟨?_, ?_, by decide, by decide⟩
  · intro c h dns hsan hcn
    have h1 : commonNameAsHostname { c with dnsNames := dns } = true := by
      have e1 : hasSANExtension { c with dnsNames := dns } = hasSANExtension c := rfl
      have e2 : ({ c with dnsNames := dns }).commonName = c.commonName := rfl
      rw [commonNameAsHostname, e1, hsan, e2, hcn]
      rfl
    have h2 : commonNameAsHostname c = true := by
      rw [commonNameAsHostname, hsan, hcn]
      rfl
    cases hip : parseIP (candidateIPOf h) with
    | some ip => simp only [verifyHostname, hip]
    | none =>
        simp only [verifyHostname, hip, h1, h2, if_true]
  · intro c h cn hsan
    have h1 : commonNameAsHostname { c with commonName := cn } = false := by
      have e1 : hasSANExtension { c with commonName := cn } = hasSANExtension c := rfl
      rw [commonNameAsHostname, e1, hsan]
      rfl
    have h2 : commonNameAsHostname c = false := by
      rw [commonNameAsHostname, hsan]
      rfl
    cases hip : parseIP (candidateIPOf h) with
    | some ip => simp only [verifyHostname, hip]
    | none =>
        simp only [verifyHostname, hip, h1, h2, Bool.false_eq_true, if_false]

/-- C4 witness: adding DNS names to the no-SAN certificate does not change
the verification result. -/
theorem claim4_witness :
    verifyHostname { certNoSAN with dnsNames := [strBytes ("other.net")] }
        (strBytes ("example.com")) =
      verifyHostname certNoSAN (strBytes ("example.com")) :=
  claim4_common_name_fallback.1 certNoSAN (strBytes ("example.com"))
    [strBytes ("other.net")] (by decide) (by decide)

/-- C6: for a host whose (bracket-stripped) form parses as an IP address,
verifyHostname succeeds exactly when the parsed IP equals a member of the
certificate IP list, and the result is unchanged under any replacement of
the DNS names, the common name, and the extensions — they are never
consulted for an IP-literal host. -/
theorem claim6_ip_hosts :
    ∀ (c : Certificate) (h : List Nat) (ip : List Nat),
      parseIP (candidateIPOf h) = some ip →
      ((verifyHostname c h = true ↔ ∃ cand ∈ c.ipAddresses, ipEqual ip cand = true)
        ∧ ∀ dns cn exts,
          verifyHostname { c with dnsNames := dns, commonName := cn, extensions := exts } h =
            verifyHostname c h) := by
  intro c h ip hip
  constructor
  · simp only [verifyHostname, hip, List.any_eq_true]
  · intro dns cn exts
    simp only [verifyHostname, hip]

/-- C6 witness: the IP host 127.0.0.1 against the certificate holding
exactly that address. -/
theorem claim6_witness :
    verifyHostname certIP (strBytes ("127.0.0.1")) = true ↔
      ∃ cand ∈ certIP.ipAddresses, ipEqual (v4InV6Prefix ++ [127, 0, 0, 1]) cand = true :=
  (claim6_ip_hosts certIP (strBytes ("127.0.0.1")) (v4InV6Prefix ++ [127, 0, 0, 1])
    (by decide)).1

end HostnameClaims

section ConnectionClaims

/-- C1: a concrete run of the connection checks in which the punycoded
hostname xn--4ca does not verify against the certificate but its Unicode
form does: with hostname and time checks enabled, the model of
Client.connect still returns the hostname-does-not-verify error (the
fallback branch that saw the Unicode form verify is followed by an
unconditional error return), so the connection is not accepted as the
claim states. -/
theorem claim1_unicode_fallback_rejected :
    verifyHostname certUnicode (strBytes ("xn--4ca")) = false
    ∧ verifyHostname certUnicode [228] = true
    ∧ connectVerify false false false certUnicode (strBytes ("xn--4ca")) (.ok [228]) 0 =
        .rejected .hostnameMismatch false := by
  refine ⟨by decide, by decide, by decide⟩

/-- C2: no rejection path of the connection checks closes the connection:
every outcome of the model of Client.connect after the TLS session is
established is either acceptance or a rejection whose connection-closed
flag is false, and concretely both a hostname-verification failure and an
expired certificate produce rejections with the connection left open. -/
theorem claim2_no_close_on_failure :
    (∀ (c : Certificate) (hostname : List Nat) (uni : Except Unit (List Nat)) (now : Int),
      connectVerify false false false c hostname uni now = .accepted
      ∨ ∃ e, connectVerify false false false c hostname uni now = .rejected e false)
    ∧ connectVerify false false false certOther (strBytes ("example.com"))
        (.ok (strBytes ("example.com"))) 0 = .rejected .hostnameMismatchUni false
    ∧ connectVerify false false false certExpired (strBytes ("example.com"))
        (.ok (strBytes ("example.com"))) 20 = .rejected .certExpired false := by
  refine ⟨?_, by decide, by decide⟩
  intro c hostname uni now
  by_cases hv : verifyHostname c hostname = false
  · cases uni with
    | error e => exact Or.inr ⟨.uniConversionFailed, by simp [connectVerify, hv]⟩
    | ok u =>
        by_cases hu : verifyHostname c u = false
        · exact Or.inr ⟨.hostnameMismatchUni, by simp [connectVerify, hv, hu]⟩
        · exact Or.inr ⟨.hostnameMismatch, by simp [connectVerify, hv, hu]⟩
  · by_cases h1 : now < c.notBefore
    · exact Or.inr ⟨.certFuture, by simp [connectVerify, hv, h1]⟩
    · by_cases h2 : c.notAfter < now
      · exact Or.inr ⟨.certExpired, by simp [connectVerify, hv, h1, h2]⟩
      · exact Or.inl (by simp [connectVerify, hv, h1, h2])

/-- C9: whenever the punycoded URL is longer than 1024 bytes, the phase of
FetchWithHostAndCert that runs before any dialing stops with the
URL-too-long error, for every host, host punycoding outcome, and client
certificate input. -/
theorem claim9_url_too_long_before_dial :
    ∀ (u host : List Nat) (hostHasPort : Bool) (punyHost : Except Unit (List Nat))
      (certPEM keyPEM : List Nat) (certParseOk : Bool),
      URLMaxLength < u.length →
      fetchPreDial (.ok u) hostHasPort host punyHost certPEM keyPEM certParseOk =
        .failedBeforeDial .urlTooLong := by
  intro u host hhp ph cp kp cok hlen
  simp only [fetchPreDial, if_pos hlen]

/-- C9 witness: a 1025-byte punycoded URL fails before dialing. -/
theorem claim9_witness :
    fetchPreDial (.ok (List.replicate 1025 97)) true (strBytes ("example.com:1965"))
      (.ok (strBytes ("example.com:1965"))) [] [] true = .failedBeforeDial .urlTooLong :=
  claim9_url_too_long_before_dial (List.replicate 1025 97) (strBytes ("example.com:1965"))
    true (.ok (strBytes ("example.com:1965"))) [] [] true
    (by rw [show URLMaxLength = 1024 from rfl, List.length_replicate]; omega)

end ConnectionClaims

